import Mathlib

/-!
# Verification of the meilisearch-sql-connector reconciliation engine

This file gives a shallow embedding (in Lean 4) of the parts of the
`meilisearch-sql-connector` crate that the specification's claims are about:

* the JSON value model (`serde_json::Value`, with i64 numbers; floating-point
  numbers are outside the model),
* the compact JSON serializer (`serde_json::to_string` / `Display for Value`),
* `ensure_valid_primary_key`, `process_document_obj` and `sync_table_impl`
  from `src/connector.rs`,
* `row_to_json` from `src/database/sqlite.rs`,
* the chunking used by `add_or_update_documents` / the batch dispatch, and
  `setup_index` from `src/meilisearch/client.rs`.

Rust `HashMap<String, Value>` is modelled as an association list with
insert-replace semantics; remote calls are modelled by recording the issued
calls and taking the outcome of each call as an oracle parameter.
-/

set_option autoImplicit false

namespace MSC

/-- `serde_json::Value`. Numbers are modelled as `Int` (`i64`); floating
point numbers do not occur in any claim and are outside the model. Object
fields are kept as an ordered association list. -/
inductive Json where
  | null
  | bool (b : Bool)
  | num (n : Int)
  | str (s : String)
  | arr (xs : List Json)
  | obj (fields : List (String × Json))
  deriving Repr

/-- UTF-8 byte size of a list of characters (Rust `str::len`). -/
def utf8Len (l : List Char) : Nat :=
  (l.map Char.utf8Size).sum

/-- The lowercase hex digit used by serde_json's `\u00XX` escapes. -/
def hexDigit (n : Nat) : Char :=
  if n < 10 then Char.ofNat (48 + n) else Char.ofNat (87 + n)

/-- serde_json's string escaping: `"` and `\` are backslash-escaped, control
characters below `0x20` use the short escapes `\b \t \n \f \r` when available
and `\u00XX` otherwise; every other character is emitted as-is. -/
def escapeChar (c : Char) : List Char :=
  if c = '"' then ['\\', '"']
  else if c = '\\' then ['\\', '\\']
  else if c.toNat < 0x20 then
    match c.toNat with
    | 0x08 => ['\\', 'b']
    | 0x09 => ['\\', 't']
    | 0x0A => ['\\', 'n']
    | 0x0C => ['\\', 'f']
    | 0x0D => ['\\', 'r']
    | n => ['\\', 'u', '0', '0', hexDigit (n / 16), hexDigit (n % 16)]
  else [c]

mutual

/-- Compact JSON rendering, as `serde_json::to_string` (and `Display` for
`Value`, which the connector uses through `id.to_string()`). -/
def serializeJson : Json → List Char
  | .null => 'n' :: 'u' :: 'l' :: 'l' :: []
  | .bool true => 't' :: 'r' :: 'u' :: 'e' :: []
  | .bool false => 'f' :: 'a' :: 'l' :: 's' :: 'e' :: []
  | .num n => (toString n).data
  | .str s => '"' :: ((s.data.map escapeChar).flatten ++ ['"'])
  | .arr xs => '[' :: (serializeArr xs ++ [']'])
  | .obj fs => '{' :: (serializeObj fs ++ ['}'])

/-- Comma-separated rendering of array elements. -/
def serializeArr : List Json → List Char
  | [] => []
  | [x] => serializeJson x
  | x :: y :: rest => serializeJson x ++ ',' :: serializeArr (y :: rest)

/-- Comma-separated rendering of object fields. -/
def serializeObj : List (String × Json) → List Char
  | [] => []
  | [(k, v)] =>
    ('"' :: ((k.data.map escapeChar).flatten ++ ['"'])) ++ ':' :: serializeJson v
  | (k, v) :: g :: rest =>
    (('"' :: ((k.data.map escapeChar).flatten ++ ['"'])) ++ ':' :: serializeJson v)
      ++ ',' :: serializeObj (g :: rest)

end

/-- One `"key":value` object entry. -/
def serializeField (k : String) (v : Json) : List Char :=
  '"' :: ((k.data.map escapeChar).flatten ++ ['"']) ++ ':' :: serializeJson v

theorem serializeObj_single (k : String) (v : Json) :
    serializeObj [(k, v)] = serializeField k v := rfl

theorem serializeObj_cons (k : String) (v : Json) (g : String × Json)
    (rest : List (String × Json)) :
    serializeObj ((k, v) :: g :: rest) =
      serializeField k v ++ ',' :: serializeObj (g :: rest) := rfl

/-- Rust `str::trim_matches('"')`: strip all leading and trailing
quotation-mark characters. -/
def trimQuotes (l : List Char) : List Char :=
  ((l.dropWhile (· = '"')).reverse.dropWhile (· = '"')).reverse

/-- The `PrimaryKeyString` of a scalar: its JSON rendering with surrounding
quotation marks trimmed (`id.to_string().trim_matches('"')`). -/
def pkString (v : Json) : String :=
  String.mk (trimQuotes (serializeJson v))

/-- The part of `TableConfig` (src/config/mod.rs) that the reconciliation
engine reads. -/
structure TableConfig where
  name : String
  primary_key : String
  index_name : Option String
  deriving DecidableEq, Repr

/-- `ConnectorError` (src/error.rs). Every variant carries its
human-readable detail string. -/
inductive ConnectorError where
  | database (msg : String)
  | meilisearch (msg : String)
  | config (msg : String)
  | tomlSerialization (msg : String)
  | noPrimaryKey (table : String)
  | unsupportedDatabaseType (ty : String)
  | io (msg : String)
  deriving DecidableEq, Repr

/-- First-match lookup in an association list (`Map::get`). -/
def lookupField : List (String × Json) → String → Option Json
  | [], _ => none
  | (k, v) :: rest, key => if k = key then some v else lookupField rest key

/-- `serde_json::Value::get(key)`: `Some` only on objects. -/
def jsonGet : Json → String → Option Json
  | .obj fs, key => lookupField fs key
  | _, _ => none

/-- `serde_json::Value::is_null()`. -/
def isNullJson : Json → Bool
  | .null => true
  | _ => false

/-- `serde_json::Value::as_object()`. -/
def jsonAsObject : Json → Option (List (String × Json))
  | .obj fs => some fs
  | _ => none

/-- `ensure_valid_primary_key` (src/connector.rs, lines 271-297): fetch the
primary-key field, reject null values, stringify by trimming quotation marks
from the JSON rendering, and reject the empty string, `"null"` and `"0"`. -/
def ensure_valid_primary_key (doc : Json) (table : TableConfig) :
    Option (String × Json) :=
  match jsonGet doc table.primary_key with
  | some id =>
    if isNullJson id then none
    else if pkString id = "" ∨ pkString id = "null" ∨ pkString id = "0" then none
    else some (pkString id, doc)
  | none => none

/-- The valid `PrimaryKeyString` of a document, when it has one. -/
def docKey (table : TableConfig) (doc : Json) : Option String :=
  (ensure_valid_primary_key doc table).map (·.1)

/-- `Map::insert` semantics on the association-list model: replace the value
at an existing key (keeping its position), otherwise append. -/
def insertField : List (String × Json) → String → Json → List (String × Json)
  | [], key, v => [(key, v)]
  | (k, w) :: rest, key, v =>
    if k = key then (k, v) :: rest else (k, w) :: insertField rest key v

/-- The string-field handling of `process_document_obj` (src/connector.rs,
lines 342-353): a string whose UTF-8 byte length exceeds `max_text_length`
is replaced by its first `max_text_length` characters
(`text.chars().take(max_text_length).collect()`); otherwise it is passed
through unchanged. -/
def truncateText (max_text_length : Nat) (s : String) : String :=
  if utf8Len s.data > max_text_length then String.mk (s.data.take max_text_length)
  else s

/-- The field loop of `process_document_obj` (src/connector.rs, lines
317-356).  `field_count` starts at 1 (the primary key); the primary-key
entry of the accumulator is skipped; reaching `max_fields` breaks the loop;
null values are replaced by the empty string (without incrementing the field
count, mirroring the `continue`); strings go through `truncateText`. -/
def processFields (table : TableConfig) (max_text_length max_fields : Nat) :
    List (String × Json) → Nat → List (String × Json) → List (String × Json)
  | [], _, acc => acc
  | (key, value) :: rest, field_count, acc =>
    if key = table.primary_key then
      processFields table max_text_length max_fields rest field_count acc
    else if max_fields ≤ field_count then acc
    else
      match value with
      | .null =>
        processFields table max_text_length max_fields rest field_count
          (insertField acc key (.str ""))
      | .str s =>
        processFields table max_text_length max_fields rest (field_count + 1)
          (insertField acc key (.str (truncateText max_text_length s)))
      | v =>
        processFields table max_text_length max_fields rest (field_count + 1)
          (insertField acc key v)

/-- The message of the `ConnectorError::Config(format!("Document too large:
{} ({}MB)", display_id, len / 1_000_000))` error. -/
def tooLargeMsg (display_id : String) (len : Nat) : String :=
  "Document too large: " ++ display_id ++ " (" ++ toString (len / 1000000) ++ "MB)"

/-- Whether an error is a "Document too large" error (a `Config` error whose
message carries the `Document too large` prefix used at
src/connector.rs line 371). -/
def isTooLargeError : ConnectorError → Bool
  | .config m => ("Document too large".data).isPrefixOf m.data
  | _ => false

/-- `process_document_obj` (src/connector.rs, lines 299-378): copy the
primary key (error if absent), run the field loop, then fail with a
"Document too large" error when the compact serialization exceeds
10,000,000 bytes. -/
def process_document_obj (table : TableConfig) (doc : List (String × Json))
    (display_id : String) (max_text_length max_fields : Nat) :
    Except ConnectorError Json :=
  match lookupField doc table.primary_key with
  | none => .error (.config ("Document missing primary key: " ++ table.primary_key))
  | some id_value =>
    if utf8Len (serializeJson (Json.obj (processFields table max_text_length
        max_fields doc 1 [(table.primary_key, id_value)]))) > 10000000 then
      .error (.config (tooLargeMsg display_id
        (utf8Len (serializeJson (Json.obj (processFields table max_text_length
          max_fields doc 1 [(table.primary_key, id_value)]))))))
    else
      .ok (Json.obj (processFields table max_text_length max_fields doc 1
        [(table.primary_key, id_value)]))

/-- `(lookupField m k).isSome` — `HashMap::contains_key`. -/
def mapContains (m : List (String × Json)) (k : String) : Bool :=
  (lookupField m k).isSome

/-- The id-keyed document maps built at src/connector.rs lines 412-441: each
document that passes `ensure_valid_primary_key` is inserted under its
`PrimaryKeyString`; invalid documents are skipped. -/
def buildMap (table : TableConfig) (docs : List Json) : List (String × Json) :=
  docs.foldl
    (fun m doc =>
      match ensure_valid_primary_key doc table with
      | some (id_str, doc_value) => insertField m id_str doc_value
      | none => m)
    []

/-- `ids_to_delete` (src/connector.rs, lines 452-456): keys present in the
Meilisearch map but absent from the database map. -/
def idsToDelete (table : TableConfig) (meili_docs db_docs : List Json) :
    List String :=
  ((buildMap table meili_docs).map (·.1)).filter
    (fun id => ¬ mapContains (buildMap table db_docs) id)

/-- One step of the `documents_to_add` loop (src/connector.rs, lines
468-486): a database-map entry whose key is absent from the Meilisearch map
is run through `process_document_obj` with the hard-coded caps
(`max_text_length = 10000000`, `max_fields = 65536`); a successfully
processed document is enqueued, a failure is skipped with a warning, a
non-object document is skipped with a warning. -/
def addStep (table : TableConfig) (meili_docs : List Json)
    (acc : List Json) (kv : String × Json) : List Json :=
  if mapContains (buildMap table meili_docs) kv.1 then acc
  else
    match jsonAsObject kv.2 with
    | some obj =>
      match process_document_obj table obj kv.1 10000000 65536 with
      | .ok processed_doc => acc ++ [processed_doc]
      | .error _ => acc
    | none => acc

/-- `documents_to_add` (src/connector.rs, lines 463-486). -/
def docsToAdd (table : TableConfig) (meili_docs db_docs : List Json) :
    List Json :=
  (buildMap table db_docs).foldl (addStep table meili_docs) []

/-- Structural worker for `chunkList`, with the list length as fuel: one
step takes the next `B` elements as a chunk and recurses on the rest.  The
fuel is always at least the list length, so the fuel-exhausted branch is
never reached. -/
def chunkListGo {α : Type} (B : Nat) : Nat → List α → List (List α)
  | _, [] => []
  | 0, x :: xs => [x :: xs]
  | fuel + 1, x :: xs =>
    (x :: xs.take (B - 1)) :: chunkListGo B fuel (xs.drop (B - 1))

/-- Rust `slice::chunks(B)`: split into consecutive chunks of `B` elements,
the last one possibly shorter.  (`chunks(0)` panics in Rust; the model is
only ever used with `0 < B`.) -/
def chunkList {α : Type} (B : Nat) (l : List α) : List (List α) :=
  chunkListGo B l.length l

/-- One reconciliation cycle's observable behaviour: the issued
`delete_documents` calls, the issued `add_or_update_documents` calls (one
per chunk), each chunk's outcome as observed by the awaiting loop, and the
cycle's returned result. -/
structure SyncOutcome where
  deletes : List (List String)
  upserts : List (List Json)
  chunkResults : List (Except ConnectorError Unit)
  result : Except ConnectorError Unit
  deriving Repr

/-- `sync_table_impl` (src/connector.rs, lines 380-546), with the remote
interactions made explicit: `meiliFetch` and `dbFetch` are the results of
`get_all_documents` and `fetch_all_records`; `deleteOutcome` and
`addOutcome` are oracles giving the result of each issued remote call.
A fetch error aborts the cycle with that error (the `?` operators at lines
396-397, Meilisearch first); a `delete_documents` error aborts the cycle
(line 460's `?`); the upsert chunks are all spawned and awaited, but their
results are only logged — the final result is `Ok(())` regardless. -/
def sync_table_impl (table : TableConfig)
    (meiliFetch dbFetch : Except ConnectorError (List Json))
    (batch_size : Nat)
    (deleteOutcome : List String → Except ConnectorError Unit)
    (addOutcome : List Json → Except ConnectorError Unit) : SyncOutcome :=
  match meiliFetch with
  | .error e => ⟨[], [], [], .error e⟩
  | .ok meili_docs =>
    match dbFetch with
    | .error e => ⟨[], [], [], .error e⟩
    | .ok db_docs =>
      let ids_to_delete := idsToDelete table meili_docs db_docs
      let upsertPhase : SyncOutcome → SyncOutcome := fun base =>
        let documents_to_add := docsToAdd table meili_docs db_docs
        let chunks := chunkList batch_size documents_to_add
        { base with
          upserts := chunks
          chunkResults := chunks.map addOutcome
          result := .ok () }
      if ids_to_delete = [] then
        upsertPhase ⟨[], [], [], .ok ()⟩
      else
        match deleteOutcome ids_to_delete with
        | .error e => ⟨[ids_to_delete], [], [], .error e⟩
        | .ok () => upsertPhase ⟨[ids_to_delete], [], [], .ok ()⟩

/-! ## The index model

The claims model the Meilisearch index as a collection of documents updated
by the issued `delete_documents` and `add_or_update_documents` calls, each
document identified by its `PrimaryKeyString`. -/

/-- Effect of one `delete_documents(ids)` call: every stored document whose
`PrimaryKeyString` is among `ids` is removed. -/
def deleteIds (table : TableConfig) (index : List Json) (ids : List String) :
    List Json :=
  index.filter (fun d =>
    match docKey table d with
    | some k => decide (k ∉ ids)
    | none => true)

/-- Effect of upserting one document: documents with the same
`PrimaryKeyString` are replaced.  A document without a valid key would be
rejected by Meilisearch and leaves the index unchanged. -/
def upsertOne (table : TableConfig) (index : List Json) (d : Json) :
    List Json :=
  match docKey table d with
  | some k => index.filter (fun e => docKey table e ≠ some k) ++ [d]
  | none => index

/-- Apply all calls issued by one cycle to an index: the deletions first,
then every document of every upsert chunk. -/
def applySync (table : TableConfig) (index : List Json) (o : SyncOutcome) :
    List Json :=
  o.upserts.flatten.foldl (upsertOne table) (o.deletes.foldl (deleteIds table) index)

/-- The valid `PrimaryKeyString`s of the documents in an index. -/
def validKeys (table : TableConfig) (index : List Json) : List String :=
  index.filterMap (docKey table)

/-! ## The SQLite adapter's row conversion (src/database/sqlite.rs) -/

/-- A decoded SQLite cell, by the `try_get` attempt that succeeds for it in
`row_to_json` (lines 170-213): `i64`, `String`, `bool`, `Vec<u8>`, SQL NULL,
or a value whose type could not be determined (the final fallback branch).
`REAL` (`f64`) columns are floating point and outside the model. -/
inductive SqlValue where
  | integer (i : Int)
  | text (s : String)
  | boolean (b : Bool)
  | blob (bytes : List Nat)
  | null
  | unknown
  deriving DecidableEq, Repr

/-- Conversion of one cell in `row_to_json` (src/database/sqlite.rs, lines
170-213).  The null (and undetermined-type) coercion to `0` applies exactly
to columns whose name is the literal string `"id"`; the configured primary
key plays no role here (`row_to_json` does not receive the table config). -/
def cellToJson (column_name : String) (v : SqlValue) : Json :=
  match v with
  | .integer i => .num i
  | .text s => .str s
  | .boolean b => .bool b
  | .blob bytes => .str ("BLOB(" ++ toString bytes.length ++ ")")
  | .null => if column_name = "id" then .num 0 else .null
  | .unknown => if column_name = "id" then .num 0 else .null

/-- `row_to_json` (src/database/sqlite.rs, lines 162-219): convert each
column in order and insert it into the document map. -/
def row_to_json (columns : List (String × SqlValue)) : Json :=
  .obj (columns.foldl (fun m kv => insertField m kv.1 (cellToJson kv.1 kv.2)) [])

/-! ## `setup_index` (src/meilisearch/client.rs, lines 37-67) -/

/-- The remote calls `setup_index` can issue. -/
inductive SetupCall where
  | getIndex
  | createIndex (pk : String)
  | setSettings
  deriving DecidableEq, Repr

/-- `setup_index` (src/meilisearch/client.rs, lines 37-67), modelled by the
list of issued calls as a function of whether the `get_index` lookup
succeeds.  With a primary key, the index existence is checked and the index
is created (with that key) only when the lookup fails; without a primary
key, only the settings are applied. -/
def setup_index (indexExists : Bool) (primary_key : Option String) :
    List SetupCall :=
  match primary_key with
  | some pk =>
    if indexExists then [.getIndex, .setSettings]
    else [.getIndex, .createIndex pk, .setSettings]
  | none => [.setSettings]

/-! ## Concrete inputs used in the analysis -/

/-- A string of 10,000,001 `a` characters: its UTF-8 length exceeds both the
text-length cap and, after truncation, still pushes the serialized document
over the 10 MB cap. -/
def bigStr : String := String.mk (List.replicate 10000001 'a')

/-- `bigStr` truncated to the text-length cap. -/
def truncBigStr : String := String.mk (List.replicate 10000000 'a')

/-- A database row whose processed document exceeds the 10 MB document
cap. -/
def bigFields : List (String × Json) := [("id", Json.num 1), ("body", Json.str bigStr)]

/-- The row `{id: 1, body: "a" * 10000001}` as a document. -/
def bigDoc : Json := Json.obj bigFields

/-! ## Association-list lemmas -/

theorem lookupField_insertField (m : List (String × Json)) (key k : String)
    (v : Json) :
    lookupField (insertField m key v) k =
      if k = key then some v else lookupField m k := by
  induction m with
  | nil =>
    simp only [insertField, lookupField]
    by_cases hk : k = key
    · rw [if_pos hk, if_pos (hk.symm)]
    · rw [if_neg hk, if_neg (fun h => hk h.symm)]
  | cons hd tl ih =>
    obtain ⟨k0, w⟩ := hd
    simp only [insertField]
    by_cases hk0 : k0 = key
    · rw [if_pos hk0]
      subst hk0
      simp only [lookupField]
      by_cases hk : k0 = k
      · rw [if_pos hk, if_pos hk.symm]
      · rw [if_neg hk, if_neg (fun h => hk h.symm), if_neg hk]
    · rw [if_neg hk0]
      simp only [lookupField]
      by_cases hk : k0 = k
      · rw [if_pos hk, if_neg (fun h => hk0 (hk.trans h)), if_pos hk]
      · rw [if_neg hk, if_neg hk, ih]

theorem mem_of_lookupField {m : List (String × Json)} {k : String} {v : Json}
    (h : lookupField m k = some v) : (k, v) ∈ m := by
  induction m with
  | nil => simp [lookupField] at h
  | cons hd tl ih =>
    obtain ⟨k0, w⟩ := hd
    simp only [lookupField] at h
    by_cases hk : k0 = k
    · rw [if_pos hk] at h
      obtain rfl : w = v := Option.some.inj h
      subst hk
      exact List.mem_cons_self _ _
    · rw [if_neg hk] at h
      exact List.mem_cons_of_mem _ (ih h)

theorem mem_insertField {m : List (String × Json)} {key k : String}
    {v w : Json} (h : (k, w) ∈ insertField m key v) :
    (k, w) ∈ m ∨ (k = key ∧ w = v) := by
  induction m with
  | nil =>
    simp only [insertField, List.mem_singleton, Prod.mk.injEq] at h
    exact Or.inr h
  | cons hd tl ih =>
    obtain ⟨k0, w0⟩ := hd
    simp only [insertField] at h
    by_cases hk0 : k0 = key
    · rw [if_pos hk0] at h
      rcases List.mem_cons.mp h with h | h
      · obtain ⟨h1, h2⟩ := Prod.mk.injEq .. ▸ h
        exact Or.inr ⟨h1 ▸ hk0, h2⟩
      · exact Or.inl (List.mem_cons_of_mem _ h)
    · rw [if_neg hk0] at h
      rcases List.mem_cons.mp h with h | h
      · exact Or.inl (h ▸ List.mem_cons_self _ _)
      · rcases ih h with h | h
        · exact Or.inl (List.mem_cons_of_mem _ h)
        · exact Or.inr h

/-! ## `ensure_valid_primary_key` lemmas -/

theorem ensure_valid_some {doc : Json} {table : TableConfig}
    {p : String × Json} (h : ensure_valid_primary_key doc table = some p) :
    p.2 = doc ∧ docKey table doc = some p.1 := by
  refine ⟨?_, by unfold docKey; rw [h]; rfl⟩
  unfold ensure_valid_primary_key at h
  split at h
  · split_ifs at h with h1 h2
    rw [← Option.some.inj h]
  · exact absurd h (by simp)

theorem docKey_some_obj {table : TableConfig} {d : Json} {k : String}
    (h : docKey table d = some k) : ∃ fs, d = Json.obj fs := by
  rcases d with _ | b | n | s | xs | fs
  case obj => exact ⟨fs, rfl⟩
  all_goals
    exfalso
    unfold docKey ensure_valid_primary_key jsonGet at h
    simp at h

theorem buildMap_lookup_aux (table : TableConfig) (docs : List Json) :
    ∀ (m : List (String × Json)) (k : String) (d : Json),
      lookupField
        (docs.foldl
          (fun m doc =>
            match ensure_valid_primary_key doc table with
            | some (id_str, doc_value) => insertField m id_str doc_value
            | none => m)
          m) k = some d →
      lookupField m k = some d ∨ (d ∈ docs ∧ docKey table d = some k) := by
  induction docs with
  | nil => intro m k d h; exact Or.inl h
  | cons doc rest ih =>
    intro m k d h
    rw [List.foldl_cons] at h
    rcases hv : ensure_valid_primary_key doc table with _ | p
    · rw [hv] at h
      rcases ih _ _ _ h with h' | h'
      · exact Or.inl h'
      · exact Or.inr ⟨List.mem_cons_of_mem _ h'.1, h'.2⟩
    · rw [hv] at h
      rcases ih _ _ _ h with h' | h'
      · rw [lookupField_insertField] at h'
        by_cases hk : k = p.1
        · rw [if_pos hk] at h'
          obtain rfl : p.2 = d := Option.some.inj h'
          obtain ⟨h2, h3⟩ := ensure_valid_some hv
          refine Or.inr ⟨?_, ?_⟩
          · rw [h2]; exact List.mem_cons_self _ _
          · rw [h2, hk]; exact h3
        · rw [if_neg hk] at h'
          exact Or.inl h'
      · exact Or.inr ⟨List.mem_cons_of_mem _ h'.1, h'.2⟩

theorem buildMap_lookup {table : TableConfig} {docs : List Json} {k : String}
    {d : Json} (h : lookupField (buildMap table docs) k = some d) :
    d ∈ docs ∧ docKey table d = some k := by
  rcases buildMap_lookup_aux table docs [] k d h with h' | h'
  · exact absurd h' (by simp [lookupField])
  · exact h'

theorem buildMap_contains_aux (table : TableConfig) (docs : List Json) :
    ∀ (m : List (String × Json)) (k : String),
      mapContains
        (docs.foldl
          (fun m doc =>
            match ensure_valid_primary_key doc table with
            | some (id_str, doc_value) => insertField m id_str doc_value
            | none => m)
          m) k = true ↔
      mapContains m k = true ∨ ∃ d ∈ docs, docKey table d = some k := by
  induction docs with
  | nil => intro m k; simp
  | cons doc rest ih =>
    intro m k
    rw [List.foldl_cons]
    rcases hv : ensure_valid_primary_key doc table with _ | p
    · rw [ih]
      constructor
      · rintro (h | ⟨d, hd, hk⟩)
        · exact Or.inl h
        · exact Or.inr ⟨d, List.mem_cons_of_mem _ hd, hk⟩
      · rintro (h | ⟨d, hd, hk⟩)
        · exact Or.inl h
        · rcases List.mem_cons.mp hd with rfl | hd
          · exfalso
            have : docKey table d = none := by unfold docKey; rw [hv]; rfl
            rw [this] at hk; exact absurd hk (by simp)
          · exact Or.inr ⟨d, hd, hk⟩
    · rw [ih]
      obtain ⟨hp2, hp3⟩ := ensure_valid_some hv
      constructor
      · rintro (h | ⟨d, hd, hk⟩)
        · unfold mapContains at h
          rw [lookupField_insertField] at h
          by_cases hk : k = p.1
          · exact Or.inr ⟨doc, List.mem_cons_self _ _, hk ▸ hp3⟩
          · rw [if_neg hk] at h
            exact Or.inl h
        · exact Or.inr ⟨d, List.mem_cons_of_mem _ hd, hk⟩
      · rintro (h | ⟨d, hd, hk⟩)
        · left
          unfold mapContains at h ⊢
          rw [lookupField_insertField]
          by_cases hkp : k = p.1
          · rw [if_pos hkp]; rfl
          · rw [if_neg hkp]; exact h
        · rcases List.mem_cons.mp hd with rfl | hd
          · left
            unfold mapContains
            rw [lookupField_insertField]
            have : k = p.1 := by rw [hp3] at hk; exact (Option.some.inj hk).symm
            rw [if_pos this]; rfl
          · exact Or.inr ⟨d, hd, hk⟩

theorem buildMap_contains {table : TableConfig} {docs : List Json}
    {k : String} :
    mapContains (buildMap table docs) k = true ↔
      ∃ d ∈ docs, docKey table d = some k := by
  rw [buildMap, buildMap_contains_aux]
  simp [mapContains, lookupField]

theorem buildMap_mem_aux (table : TableConfig) (docs : List Json) :
    ∀ (m : List (String × Json)) (kv : String × Json),
      kv ∈ docs.foldl
          (fun m doc =>
            match ensure_valid_primary_key doc table with
            | some (id_str, doc_value) => insertField m id_str doc_value
            | none => m)
          m →
      kv ∈ m ∨ (kv.2 ∈ docs ∧ docKey table kv.2 = some kv.1) := by
  induction docs with
  | nil => intro m kv h; exact Or.inl h
  | cons doc rest ih =>
    intro m kv h
    rw [List.foldl_cons] at h
    rcases hv : ensure_valid_primary_key doc table with _ | p
    · rw [hv] at h
      rcases ih _ _ h with h' | h'
      · exact Or.inl h'
      · exact Or.inr ⟨List.mem_cons_of_mem _ h'.1, h'.2⟩
    · rw [hv] at h
      rcases ih _ _ h with h' | h'
      · obtain ⟨k, w⟩ := kv
        rcases mem_insertField h' with h'' | ⟨rfl, rfl⟩
        · exact Or.inl h''
        · obtain ⟨hp2, hp3⟩ := ensure_valid_some hv
          refine Or.inr ⟨?_, ?_⟩
          · rw [hp2]; exact List.mem_cons_self _ _
          · rw [hp2]; exact hp3
      · exact Or.inr ⟨List.mem_cons_of_mem _ h'.1, h'.2⟩

theorem buildMap_mem {table : TableConfig} {docs : List Json}
    {kv : String × Json} (h : kv ∈ buildMap table docs) :
    kv.2 ∈ docs ∧ docKey table kv.2 = some kv.1 := by
  rcases buildMap_mem_aux table docs [] kv h with h' | h'
  · exact absurd h' (by simp)
  · exact h'

theorem docKey_eq_of_jsonGet {table : TableConfig} {d1 d2 : Json}
    (h : jsonGet d1 table.primary_key = jsonGet d2 table.primary_key) :
    docKey table d1 = docKey table d2 := by
  unfold docKey ensure_valid_primary_key
  rw [h]
  rcases jsonGet d2 table.primary_key with _ | v
  · rfl
  · by_cases hnull : isNullJson v
    · simp [hnull]
    · by_cases hs : pkString v = "" ∨ pkString v = "null" ∨ pkString v = "0" <;>
        simp [hnull, hs]

/-! ## `process_document_obj` structure lemmas -/

theorem processFields_lookup_pk (table : TableConfig)
    (max_text_length max_fields : Nat) (fields : List (String × Json)) :
    ∀ (n : Nat) (acc : List (String × Json)),
      lookupField (processFields table max_text_length max_fields fields n acc)
          table.primary_key =
        lookupField acc table.primary_key := by
  induction fields with
  | nil => intro n acc; rfl
  | cons hd tl ih =>
    intro n acc
    obtain ⟨key, value⟩ := hd
    rcases value with _ | b | i | s | xs | fs <;>
    · simp only [processFields]
      by_cases hk : key = table.primary_key
      · rw [if_pos hk]
        exact ih _ _
      · rw [if_neg hk]
        by_cases hf : max_fields ≤ n
        · rw [if_pos hf]
        · rw [if_neg hf, ih, lookupField_insertField,
            if_neg (fun h => hk h.symm)]

theorem process_ok_parts {table : TableConfig} {fields : List (String × Json)}
    {display_id : String} {tc fc : Nat} {v : Json}
    (h : process_document_obj table fields display_id tc fc = .ok v) :
    ∃ idv, lookupField fields table.primary_key = some idv ∧
      v = Json.obj (processFields table tc fc fields 1
            [(table.primary_key, idv)]) ∧
      utf8Len (serializeJson v) ≤ 10000000 := by
  unfold process_document_obj at h
  split at h
  · exact absurd h (by simp)
  next idv hl =>
    split_ifs at h with hsz
    obtain rfl : _ = v := Except.ok.inj h
    exact ⟨idv, hl, rfl, Nat.le_of_not_lt hsz⟩

theorem process_ok_docKey {table : TableConfig}
    {fields : List (String × Json)} {display_id : String} {tc fc : Nat}
    {v : Json} (h : process_document_obj table fields display_id tc fc = .ok v) :
    docKey table v = docKey table (Json.obj fields) := by
  obtain ⟨idv, hl, hv, _⟩ := process_ok_parts h
  apply docKey_eq_of_jsonGet
  rw [hv]
  show lookupField _ table.primary_key = lookupField fields table.primary_key
  rw [processFields_lookup_pk, hl]
  simp [lookupField]

/-! ## `docsToAdd` membership -/

theorem addStep_mem (table : TableConfig) (meili_docs : List Json)
    (acc : List Json) (kv : String × Json) (x : Json) :
    x ∈ addStep table meili_docs acc kv ↔
      x ∈ acc ∨
        (mapContains (buildMap table meili_docs) kv.1 = false ∧
          ∃ fs, jsonAsObject kv.2 = some fs ∧
            process_document_obj table fs kv.1 10000000 65536 = .ok x) := by
  unfold addStep
  by_cases hc : mapContains (buildMap table meili_docs) kv.1
  · rw [if_pos hc]
    constructor
    · exact Or.inl
    · rintro (h | ⟨h2, _⟩)
      · exact h
      · rw [hc] at h2; exact absurd h2 (by simp)
  · rw [if_neg hc]
    have hc' : mapContains (buildMap table meili_docs) kv.1 = false := by
      simpa using hc
    split
    next fs ho =>
      split
      next pd hp =>
        simp only [List.mem_append, List.mem_singleton]
        constructor
        · rintro (h | rfl)
          · exact Or.inl h
          · exact Or.inr ⟨hc', fs, ho, hp⟩
        · rintro (h | ⟨_, fs', h4, h5⟩)
          · exact Or.inl h
          · rw [ho] at h4
            obtain rfl := Option.some.inj h4
            rw [hp] at h5
            exact Or.inr (Except.ok.inj h5).symm
      next e hp =>
        constructor
        · exact Or.inl
        · rintro (h | ⟨_, fs', h4, h5⟩)
          · exact h
          · rw [ho] at h4
            obtain rfl := Option.some.inj h4
            rw [hp] at h5
            exact absurd h5 (by simp)
    next ho =>
      constructor
      · exact Or.inl
      · rintro (h | ⟨_, fs', h4, h5⟩)
        · exact h
        · rw [ho] at h4; exact absurd h4 (by simp)

theorem docsToAdd_mem_aux (table : TableConfig) (meili_docs : List Json)
    (entries : List (String × Json)) :
    ∀ (acc : List Json) (x : Json),
      x ∈ entries.foldl (addStep table meili_docs) acc ↔
      x ∈ acc ∨ ∃ kv ∈ entries,
        mapContains (buildMap table meili_docs) kv.1 = false ∧
        ∃ fs, jsonAsObject kv.2 = some fs ∧
          process_document_obj table fs kv.1 10000000 65536 = .ok x := by
  induction entries with
  | nil => intro acc x; simp
  | cons kv rest ih =>
    intro acc x
    rw [List.foldl_cons, ih, addStep_mem]
    constructor
    · rintro ((h | ⟨h2, fs, h4, h5⟩) | ⟨kv', h1, h2, h3⟩)
      · exact Or.inl h
      · exact Or.inr ⟨kv, List.mem_cons_self _ _, h2, fs, h4, h5⟩
      · exact Or.inr ⟨kv', List.mem_cons_of_mem _ h1, h2, h3⟩
    · rintro (h | ⟨kv', h1, h2, h3⟩)
      · exact Or.inl (Or.inl h)
      · rcases List.mem_cons.mp h1 with rfl | h1
        · exact Or.inl (Or.inr ⟨h2, h3⟩)
        · exact Or.inr ⟨kv', h1, h2, h3⟩

theorem mem_docsToAdd {table : TableConfig} {meili_docs db_docs : List Json}
    {x : Json} :
    x ∈ docsToAdd table meili_docs db_docs ↔
      ∃ kv ∈ buildMap table db_docs,
        mapContains (buildMap table meili_docs) kv.1 = false ∧
        ∃ fs, jsonAsObject kv.2 = some fs ∧
          process_document_obj table fs kv.1 10000000 65536 = .ok x := by
  rw [docsToAdd, docsToAdd_mem_aux]
  simp

/-! ## `idsToDelete` membership -/

theorem lookupField_isSome_iff {m : List (String × Json)} {k : String} :
    (lookupField m k).isSome = true ↔ ∃ v, lookupField m k = some v := by
  rcases h : lookupField m k with _ | v <;> simp

theorem lookup_isSome_iff_mem_keys (m : List (String × Json)) (k : String) :
    (lookupField m k).isSome = true ↔ k ∈ m.map (·.1) := by
  induction m with
  | nil => simp [lookupField]
  | cons hd tl ih =>
    obtain ⟨k0, w⟩ := hd
    simp only [lookupField, List.map_cons, List.mem_cons]
    by_cases hk : k0 = k
    · rw [if_pos hk]
      simp [hk]
    · rw [if_neg hk, ih]
      constructor
      · exact Or.inr
      · rintro (rfl | h)
        · exact absurd rfl hk
        · exact h

theorem mem_keys_of_buildMap {table : TableConfig} {docs : List Json}
    {k : String} :
    k ∈ (buildMap table docs).map (·.1) ↔
      mapContains (buildMap table docs) k = true := by
  rw [← lookup_isSome_iff_mem_keys]
  rfl

theorem mem_idsToDelete {table : TableConfig} {meili_docs db_docs : List Json}
    {k : String} :
    k ∈ idsToDelete table meili_docs db_docs ↔
      (∃ d ∈ meili_docs, docKey table d = some k) ∧
      ¬ ∃ d ∈ db_docs, docKey table d = some k := by
  unfold idsToDelete
  rw [List.mem_filter]
  constructor
  · rintro ⟨h1, h2⟩
    refine ⟨buildMap_contains.mp (mem_keys_of_buildMap.mp h1), ?_⟩
    intro hdb
    rw [← @buildMap_contains table db_docs k] at hdb
    simp [hdb] at h2
  · rintro ⟨h1, h2⟩
    refine ⟨mem_keys_of_buildMap.mpr (buildMap_contains.mpr h1), ?_⟩
    rw [← @buildMap_contains table db_docs k] at h2
    simpa using h2

/-! ## `chunkList` lemmas -/

theorem chunkListGo_flatten {α : Type} (B : Nat) :
    ∀ (fuel : Nat) (l : List α), l.length ≤ fuel →
      (chunkListGo B fuel l).flatten = l := by
  intro fuel
  induction fuel with
  | zero =>
    intro l hl
    obtain rfl : l = [] := List.length_eq_zero.mp (Nat.le_zero.mp hl)
    rfl
  | succ fuel ih =>
    intro l hl
    cases l with
    | nil => rfl
    | cons x xs =>
      rw [chunkListGo, List.flatten_cons, ih]
      · simp [List.take_append_drop]
      · rw [List.length_drop]
        simp only [List.length_cons] at hl
        omega

theorem chunkList_flatten {α : Type} (B : Nat) (l : List α) :
    (chunkList B l).flatten = l :=
  chunkListGo_flatten B l.length l le_rfl

theorem chunkListGo_mem_length {α : Type} {B : Nat} (hB : 0 < B) :
    ∀ (fuel : Nat) (l c : List α), l.length ≤ fuel →
      c ∈ chunkListGo B fuel l → c.length ≤ B := by
  intro fuel
  induction fuel with
  | zero =>
    intro l c hl hc
    obtain rfl : l = [] := List.length_eq_zero.mp (Nat.le_zero.mp hl)
    simp [chunkListGo] at hc
  | succ fuel ih =>
    intro l c hl hc
    cases l with
    | nil => simp [chunkListGo] at hc
    | cons x xs =>
      rw [chunkListGo] at hc
      rcases List.mem_cons.mp hc with rfl | hc
      · simp only [List.length_cons]
        have := List.length_take_le (B - 1) xs
        omega
      · refine ih (xs.drop (B - 1)) c ?_ hc
        rw [List.length_drop]
        simp only [List.length_cons] at hl
        omega

theorem chunkList_mem_length {α : Type} {B : Nat} {l c : List α}
    (hB : 0 < B) (hc : c ∈ chunkList B l) : c.length ≤ B :=
  chunkListGo_mem_length hB l.length l c le_rfl hc

theorem chunkList_sum_lengths {α : Type} (B : Nat) (l : List α) :
    ((chunkList B l).map List.length).sum = l.length := by
  rw [← List.length_flatten, chunkList_flatten]

/-! ## Index-model lemmas -/

theorem mem_validKeys {table : TableConfig} {index : List Json} {k : String} :
    k ∈ validKeys table index ↔ ∃ d ∈ index, docKey table d = some k := by
  unfold validKeys
  exact List.mem_filterMap

theorem validKeys_deleteIds {table : TableConfig} {index : List Json}
    {ids : List String} {k : String} :
    k ∈ validKeys table (deleteIds table index ids) ↔
      k ∈ validKeys table index ∧ k ∉ ids := by
  rw [mem_validKeys, mem_validKeys]
  unfold deleteIds
  constructor
  · rintro ⟨d, hd, hk⟩
    obtain ⟨hd1, hd2⟩ := List.mem_filter.mp hd
    rw [hk] at hd2
    refine ⟨⟨d, hd1, hk⟩, ?_⟩
    simpa using hd2
  · rintro ⟨⟨d, hd, hk⟩, hnot⟩
    refine ⟨d, List.mem_filter.mpr ⟨hd, ?_⟩, hk⟩
    rw [hk]
    simpa using hnot

theorem upsertOne_some {table : TableConfig} {index : List Json} {d : Json}
    {k0 : String} (hd : docKey table d = some k0) :
    upsertOne table index d =
      index.filter (fun e => docKey table e ≠ some k0) ++ [d] := by
  unfold upsertOne
  rw [hd]

theorem upsertOne_none {table : TableConfig} {index : List Json} {d : Json}
    (hd : docKey table d = none) : upsertOne table index d = index := by
  unfold upsertOne
  rw [hd]

theorem validKeys_upsertOne {table : TableConfig} {index : List Json}
    {d : Json} {k : String} :
    k ∈ validKeys table (upsertOne table index d) ↔
      k ∈ validKeys table index ∨ docKey table d = some k := by
  rcases hd : docKey table d with _ | k0
  · rw [upsertOne_none hd]
    simp
  · rw [upsertOne_some hd, mem_validKeys, mem_validKeys]
    constructor
    · rintro ⟨e, he, hk⟩
      rcases List.mem_append.mp he with he | he
      · exact Or.inl ⟨e, (List.mem_filter.mp he).1, hk⟩
      · obtain rfl := List.mem_singleton.mp he
        rw [hd] at hk
        exact Or.inr hk
    · rintro (⟨e, he, hk⟩ | hk)
      · by_cases hke : docKey table e = some k0
        · obtain rfl : k0 = k := by
            rw [hke] at hk; exact Option.some.inj hk
          exact ⟨d, List.mem_append.mpr (Or.inr (by simp)), hd⟩
        · exact ⟨e, List.mem_append.mpr
            (Or.inl (List.mem_filter.mpr ⟨he, by simpa using hke⟩)), hk⟩
      · obtain rfl := Option.some.inj hk
        exact ⟨d, List.mem_append.mpr (Or.inr (by simp)), hd⟩

theorem validKeys_foldl_upsert {table : TableConfig} (ds : List Json) :
    ∀ (index : List Json) (k : String),
      k ∈ validKeys table (ds.foldl (upsertOne table) index) ↔
        k ∈ validKeys table index ∨ ∃ d ∈ ds, docKey table d = some k := by
  induction ds with
  | nil => intro index k; simp
  | cons d rest ih =>
    intro index k
    rw [List.foldl_cons, ih, validKeys_upsertOne]
    constructor
    · rintro ((h | h) | ⟨d', hd', hk⟩)
      · exact Or.inl h
      · exact Or.inr ⟨d, List.mem_cons_self _ _, h⟩
      · exact Or.inr ⟨d', List.mem_cons_of_mem _ hd', hk⟩
    · rintro (h | ⟨d', hd', hk⟩)
      · exact Or.inl (Or.inl h)
      · rcases List.mem_cons.mp hd' with rfl | hd'
        · exact Or.inl (Or.inr hk)
        · exact Or.inr ⟨d', hd', hk⟩

theorem validKeys_foldl_delete {table : TableConfig} (dels : List (List String)) :
    ∀ (index : List Json) (k : String),
      k ∈ validKeys table (dels.foldl (deleteIds table) index) ↔
        k ∈ validKeys table index ∧ ∀ ids ∈ dels, k ∉ ids := by
  induction dels with
  | nil => intro index k; simp
  | cons ids rest ih =>
    intro index k
    rw [List.foldl_cons, ih, validKeys_deleteIds]
    constructor
    · rintro ⟨⟨h1, h2⟩, h3⟩
      refine ⟨h1, ?_⟩
      intro ids' hids'
      rcases List.mem_cons.mp hids' with rfl | hids'
      · exact h2
      · exact h3 ids' hids'
    · rintro ⟨h1, h2⟩
      exact ⟨⟨h1, h2 ids (List.mem_cons_self _ _)⟩,
        fun ids' hids' => h2 ids' (List.mem_cons_of_mem _ hids')⟩

/-! ## `sync_table_impl` unfolding -/

theorem sync_ok_eq (table : TableConfig) (m d : List Json) (B : Nat)
    (delOut : List String → Except ConnectorError Unit)
    (addOut : List Json → Except ConnectorError Unit) :
    sync_table_impl table (.ok m) (.ok d) B delOut addOut =
      if idsToDelete table m d = [] then
        ⟨[], chunkList B (docsToAdd table m d),
          (chunkList B (docsToAdd table m d)).map addOut, .ok ()⟩
      else
        match delOut (idsToDelete table m d) with
        | .error e => ⟨[idsToDelete table m d], [], [], .error e⟩
        | .ok () => ⟨[idsToDelete table m d], chunkList B (docsToAdd table m d),
            (chunkList B (docsToAdd table m d)).map addOut, .ok ()⟩ := rfl

theorem sync_ok_delOk_eq (table : TableConfig) (m d : List Json) (B : Nat)
    (addOut : List Json → Except ConnectorError Unit) :
    sync_table_impl table (.ok m) (.ok d) B (fun _ => .ok ()) addOut =
      ⟨if idsToDelete table m d = [] then [] else [idsToDelete table m d],
        chunkList B (docsToAdd table m d),
        (chunkList B (docsToAdd table m d)).map addOut, .ok ()⟩ := by
  by_cases h : idsToDelete table m d = []
  · rw [sync_ok_eq, if_pos h, if_pos h]
  · rw [sync_ok_eq, if_neg h, if_neg h]

theorem isNullJson_iff {v : Json} : isNullJson v = true ↔ v = Json.null := by
  cases v <;> simp [isNullJson]

theorem jsonAsObject_some {d : Json} {fs : List (String × Json)}
    (h : jsonAsObject d = some fs) : d = .obj fs := by
  cases d <;> simp [jsonAsObject] at h
  rw [h]

/-- Every document enqueued by a cycle has a valid key that is a database
key absent from the Meilisearch side. -/
theorem docsToAdd_key {table : TableConfig} {m d : List Json} {doc : Json}
    (h : doc ∈ docsToAdd table m d) :
    ∃ k, docKey table doc = some k ∧ (∃ r ∈ d, docKey table r = some k) ∧
      ¬ ∃ mdoc ∈ m, docKey table mdoc = some k := by
  obtain ⟨kv, hkv, hcont, fs, ho, hp⟩ := mem_docsToAdd.mp h
  obtain ⟨hmem, hkey⟩ := buildMap_mem hkv
  have hobj : kv.2 = .obj fs := jsonAsObject_some ho
  have hdk : docKey table doc = some kv.1 := by
    rw [process_ok_docKey hp, ← hobj]
    exact hkey
  refine ⟨kv.1, hdk, ⟨kv.2, hmem, hkey⟩, ?_⟩
  rintro ⟨mdoc, h1, h2⟩
  rw [buildMap_contains.mpr ⟨mdoc, h1, h2⟩] at hcont
  exact absurd hcont (by simp)

theorem isOk_exists {ε α : Type} {e : Except ε α} (h : e.isOk = true) :
    ∃ a, e = .ok a := by
  cases e with
  | error a => exact absurd h (by simp [Except.isOk, Except.toBool])
  | ok a => exact ⟨a, rfl⟩

/-- The added-documents key set, as needed for convergence: a key has an
upserted document exactly when it is a database key absent from the
Meilisearch side, provided processing succeeds on the database documents. -/
theorem docsToAdd_key_iff {table : TableConfig} {m d : List Json} {k : String}
    (H : ∀ doc ∈ d, ∀ fs, jsonAsObject doc = some fs →
      ∀ k', docKey table doc = some k' →
        (process_document_obj table fs k' 10000000 65536).isOk = true) :
    (∃ doc ∈ docsToAdd table m d, docKey table doc = some k) ↔
      ((∃ doc ∈ d, docKey table doc = some k) ∧
        ¬ ∃ doc ∈ m, docKey table doc = some k) := by
  constructor
  · rintro ⟨doc, hdoc, hkey⟩
    obtain ⟨k', hk', hd', hm'⟩ := docsToAdd_key hdoc
    rw [hkey] at hk'
    obtain rfl := Option.some.inj hk'
    exact ⟨hd', hm'⟩
  · rintro ⟨hd, hm⟩
    have hcont : mapContains (buildMap table d) k = true :=
      buildMap_contains.mpr hd
    obtain ⟨dv, hdv⟩ := lookupField_isSome_iff.mp hcont
    obtain ⟨hmem, hkey⟩ := buildMap_lookup hdv
    obtain ⟨fs, rfl⟩ := docKey_some_obj hkey
    have hok := H _ hmem fs rfl k hkey
    obtain ⟨pd, hp⟩ := isOk_exists hok
    have hmc : mapContains (buildMap table m) k = false := by
      rcases hb : mapContains (buildMap table m) k with _ | _
      · rfl
      · exact absurd (buildMap_contains.mp hb) hm
    refine ⟨pd, mem_docsToAdd.mpr ⟨(k, Json.obj fs),
      mem_of_lookupField hdv, hmc, fs, rfl, hp⟩, ?_⟩
    rw [process_ok_docKey hp]
    exact hkey

/-! ## Serialization length lemmas -/

theorem utf8Len_append (a b : List Char) :
    utf8Len (a ++ b) = utf8Len a + utf8Len b := by
  simp [utf8Len]

theorem utf8Len_cons (c : Char) (l : List Char) :
    utf8Len (c :: l) = c.utf8Size + utf8Len l := by
  simp [utf8Len]

theorem length_le_utf8Len (l : List Char) : l.length ≤ utf8Len l := by
  induction l with
  | nil => simp [utf8Len]
  | cons c rest ih =>
    rw [utf8Len_cons, List.length_cons]
    have := Char.utf8Size_pos c
    omega

theorem escapeChar_length_pos (c : Char) : 0 < (escapeChar c).length := by
  unfold escapeChar
  split_ifs <;> first | simp | (split <;> simp)

theorem length_le_utf8Len_escaped (l : List Char) :
    l.length ≤ utf8Len (l.map escapeChar).flatten := by
  induction l with
  | nil => simp [utf8Len]
  | cons c rest ih =>
    rw [List.map_cons, List.flatten_cons, utf8Len_append, List.length_cons]
    have h1 : 0 < (escapeChar c).length := escapeChar_length_pos c
    have h2 : (escapeChar c).length ≤ utf8Len (escapeChar c) :=
      length_le_utf8Len _
    omega

theorem utf8Len_serialize_str (s : String) :
    utf8Len (serializeJson (.str s)) =
      2 + utf8Len (s.data.map escapeChar).flatten := by
  show utf8Len ('"' :: ((s.data.map escapeChar).flatten ++ ['"'])) = _
  rw [utf8Len_cons, utf8Len_append]
  have h1 : ('"' : Char).utf8Size = 1 := rfl
  have h2 : utf8Len ['"'] = 1 := rfl
  omega

theorem serializeField_ge (k : String) (v : Json) :
    utf8Len (serializeJson v) ≤ utf8Len (serializeField k v) := by
  unfold serializeField
  rw [utf8Len_append, utf8Len_cons, utf8Len_cons]
  omega

theorem serializeObj_ge_mem {fs : List (String × Json)} {k : String}
    {v : Json} (h : (k, v) ∈ fs) :
    utf8Len (serializeJson v) ≤ utf8Len (serializeObj fs) := by
  induction fs with
  | nil => simp at h
  | cons hd rest ih =>
    obtain ⟨k0, v0⟩ := hd
    cases rest with
    | nil =>
      obtain ⟨rfl, rfl⟩ : k = k0 ∧ v = v0 := by simpa using h
      rw [serializeObj_single]
      exact serializeField_ge k v
    | cons g rest' =>
      rw [serializeObj_cons, utf8Len_append, utf8Len_cons]
      rcases List.mem_cons.mp h with heq | hmem
      · obtain ⟨rfl, rfl⟩ : k = k0 ∧ v = v0 := by simpa using heq
        have := serializeField_ge k v
        omega
      · have := ih hmem
        omega

theorem serializeJson_obj_ge_mem {fs : List (String × Json)} {k : String}
    {v : Json} (h : (k, v) ∈ fs) :
    utf8Len (serializeJson v) ≤ utf8Len (serializeJson (.obj fs)) := by
  show _ ≤ utf8Len ('{' :: (serializeObj fs ++ ['}']))
  rw [utf8Len_cons, utf8Len_append]
  have := serializeObj_ge_mem h
  omega

theorem utf8Size_a : ('a' : Char).utf8Size = 1 := rfl

theorem utf8Len_replicate_a (n : Nat) :
    utf8Len (List.replicate n 'a') = n := by
  unfold utf8Len
  rw [List.map_replicate, utf8Size_a, List.sum_replicate]
  simp

theorem flatten_replicate_singleton {α : Type} (n : Nat) (c : α) :
    (List.replicate n [c]).flatten = List.replicate n c := by
  induction n with
  | zero => rfl
  | succ n ih => simp [List.replicate_succ, ih]

theorem escapeChar_a : escapeChar 'a' = ['a'] := rfl

/-! ## The oversized document -/

theorem truncateText_big : truncateText 10000000 bigStr = truncBigStr := by
  unfold truncateText
  have hd : bigStr.data = List.replicate 10000001 'a' := rfl
  rw [hd, utf8Len_replicate_a, if_pos (by norm_num)]
  unfold truncBigStr
  rw [List.take_replicate, Nat.min_eq_left (by norm_num)]

theorem processFields_big :
    processFields ⟨"t", "id", none⟩ 10000000 65536 bigFields 1
        [("id", Json.num 1)] =
      [("id", Json.num 1), ("body", Json.str truncBigStr)] := by
  have h0 : processFields ⟨"t", "id", none⟩ 10000000 65536 bigFields 1
      [("id", Json.num 1)] =
      [("id", Json.num 1), ("body", Json.str (truncateText 10000000 bigStr))] :=
    rfl
  rw [h0, truncateText_big]

theorem process_error_of_too_large {table : TableConfig}
    {fields : List (String × Json)} {display_id : String} {tc fc : Nat}
    {idv : Json} (hl : lookupField fields table.primary_key = some idv)
    (hbig : utf8Len (serializeJson (Json.obj (processFields table tc fc
      fields 1 [(table.primary_key, idv)]))) > 10000000) :
    process_document_obj table fields display_id tc fc =
      .error (.config (tooLargeMsg display_id
        (utf8Len (serializeJson (Json.obj (processFields table tc fc
          fields 1 [(table.primary_key, idv)])))))) := by
  unfold process_document_obj
  split
  next hnone => rw [hl] at hnone; exact absurd hnone (by simp)
  next idv' heq =>
    obtain rfl : idv = idv' := by rw [hl] at heq; exact Option.some.inj heq
    rw [if_pos hbig]

theorem serialized_big_gt :
    utf8Len (serializeJson (Json.obj (processFields ⟨"t", "id", none⟩
      10000000 65536 bigFields 1 [("id", Json.num 1)]))) > 10000000 := by
  have hmem : ("body", Json.str truncBigStr) ∈ processFields ⟨"t", "id", none⟩
      10000000 65536 bigFields 1 [("id", Json.num 1)] := by
    rw [processFields_big]
    simp
  have h2 : utf8Len (serializeJson (Json.str truncBigStr)) = 10000002 := by
    rw [utf8Len_serialize_str]
    have hd : truncBigStr.data = List.replicate 10000000 'a' := rfl
    rw [hd, List.map_replicate, escapeChar_a, flatten_replicate_singleton,
      utf8Len_replicate_a]
  have h3 := serializeJson_obj_ge_mem hmem
  omega

theorem process_big_errors :
    process_document_obj ⟨"t", "id", none⟩ bigFields "1" 10000000 65536 =
      .error (.config (tooLargeMsg "1"
        (utf8Len (serializeJson (Json.obj (processFields ⟨"t", "id", none⟩
          10000000 65536 bigFields 1 [("id", Json.num 1)])))))) :=
  process_error_of_too_large rfl serialized_big_gt

theorem process_ok_of_small {table : TableConfig}
    {fields : List (String × Json)} {display_id : String} {tc fc : Nat}
    {idv : Json} (hl : lookupField fields table.primary_key = some idv)
    (hsmall : ¬ utf8Len (serializeJson (Json.obj (processFields table tc fc
      fields 1 [(table.primary_key, idv)]))) > 10000000) :
    process_document_obj table fields display_id tc fc =
      .ok (Json.obj (processFields table tc fc fields 1
        [(table.primary_key, idv)])) := by
  unfold process_document_obj
  split
  next hnone => rw [hl] at hnone; exact absurd hnone (by simp)
  next idv' heq =>
    obtain rfl : idv = idv' := by rw [hl] at heq; exact Option.some.inj heq
    rw [if_neg hsmall]

theorem process_missing_pk {table : TableConfig}
    {fields : List (String × Json)} {display_id : String} {tc fc : Nat}
    (hl : lookupField fields table.primary_key = none) :
    process_document_obj table fields display_id tc fc =
      .error (.config ("Document missing primary key: " ++ table.primary_key)) := by
  unfold process_document_obj
  rw [hl]

theorem isTooLargeError_msg (display_id : String) (len : Nat) :
    isTooLargeError (ConnectorError.config (tooLargeMsg display_id len)) =
      true := by
  show (("Document too large").data).isPrefixOf
    ((tooLargeMsg display_id len).data) = true
  rw [List.isPrefixOf_iff_prefix]
  unfold tooLargeMsg
  rw [String.data_append, String.data_append, String.data_append,
    String.data_append,
    show ("Document too large: ").data =
      ("Document too large").data ++ (": ").data from by decide]
  simp only [List.append_assoc]
  exact List.prefix_append _ _

theorem isTooLargeError_missing_pk (pk : String) :
    isTooLargeError (ConnectorError.config
      ("Document missing primary key: " ++ pk)) = false := by
  have hnp : ¬ (("Document too large").data <+:
      ("Document missing primary key: " ++ pk).data) := by
    intro hp
    have ht := List.prefix_iff_eq_take.mp hp
    rw [String.data_append,
      List.take_append_of_le_length (by decide)] at ht
    exact absurd ht (by decide)
  show (("Document too large").data).isPrefixOf
    (("Document missing primary key: " ++ pk).data) = false
  rcases hq : (("Document too large").data).isPrefixOf
      (("Document missing primary key: " ++ pk).data) with _ | _
  · rfl
  · exact absurd (List.isPrefixOf_iff_prefix.mp hq) hnp

theorem addStep_error {table : TableConfig} {m : List Json} {acc : List Json}
    {kv : String × Json} {fs : List (String × Json)} {e : ConnectorError}
    (hc : mapContains (buildMap table m) kv.1 = false)
    (ho : jsonAsObject kv.2 = some fs)
    (hp : process_document_obj table fs kv.1 10000000 65536 = .error e) :
    addStep table m acc kv = acc := by
  unfold addStep
  rw [if_neg (by simp [hc]), ho]
  show (match process_document_obj table fs kv.1 10000000 65536 with
    | .ok processed_doc => acc ++ [processed_doc]
    | .error _ => acc) = acc
  rw [hp]

theorem docsToAdd_big :
    docsToAdd ⟨"t", "id", none⟩ [] [bigDoc] = [] := by
  unfold docsToAdd
  have hb : buildMap ⟨"t", "id", none⟩ [bigDoc] = [("1", bigDoc)] := rfl
  rw [hb, List.foldl_cons, List.foldl_nil]
  exact addStep_error rfl rfl process_big_errors

/-! ## `row_to_json` lemmas -/

theorem row_fold_lookup_of_not_mem (cols : List (String × SqlValue)) :
    ∀ (acc : List (String × Json)) (n : String),
      n ∉ cols.map Prod.fst →
      lookupField (cols.foldl
        (fun m kv => insertField m kv.1 (cellToJson kv.1 kv.2)) acc) n =
        lookupField acc n := by
  induction cols with
  | nil => intro acc n _; rfl
  | cons hd rest ih =>
    intro acc n hn
    rw [List.foldl_cons, ih]
    · rw [lookupField_insertField,
        if_neg (fun h => hn (by simp [h]))]
    · intro hmem
      exact hn (by simp [hmem])

theorem row_fold_lookup (cols : List (String × SqlValue)) :
    ∀ (acc : List (String × Json)) (n : String) (v : SqlValue),
      (cols.map Prod.fst).Nodup → (n, v) ∈ cols →
      lookupField (cols.foldl
        (fun m kv => insertField m kv.1 (cellToJson kv.1 kv.2)) acc) n =
        some (cellToJson n v) := by
  induction cols with
  | nil => intro acc n v _ h; simp at h
  | cons hd rest ih =>
    intro acc n v hnd hmem
    obtain ⟨k0, v0⟩ := hd
    rw [List.map_cons, List.nodup_cons] at hnd
    rw [List.foldl_cons]
    rcases List.mem_cons.mp hmem with heq | hmem'
    · obtain ⟨rfl, rfl⟩ : n = k0 ∧ v = v0 := by simpa using heq
      rw [row_fold_lookup_of_not_mem rest _ n hnd.1,
        lookupField_insertField, if_pos rfl]
    · exact ih _ n v hnd.2 hmem'

/-! ## Claim theorems -/

/-- C5.  Fetch-phase atomicity: when `get_all_documents` or
`fetch_all_records` returns an error, `sync_table_impl` returns that error,
issues no `delete_documents` call and no `add_or_update_documents` call, and
the index is unchanged by the cycle. -/
theorem C5_fetch_phase_atomicity :
    ∀ (table : TableConfig) (e : ConnectorError)
      (df : Except ConnectorError (List Json)) (m index : List Json) (B : Nat)
      (delOut : List String → Except ConnectorError Unit)
      (addOut : List Json → Except ConnectorError Unit),
      sync_table_impl table (.error e) df B delOut addOut =
        ⟨[], [], [], .error e⟩ ∧
      sync_table_impl table (.ok m) (.error e) B delOut addOut =
        ⟨[], [], [], .error e⟩ ∧
      applySync table index (sync_table_impl table (.error e) df B delOut addOut) =
        index ∧
      applySync table index (sync_table_impl table (.ok m) (.error e) B delOut addOut) =
        index := by
  intro table e df m index B delOut addOut
  refine ⟨?_, rfl, ?_, rfl⟩ <;> cases df <;> rfl

/-- C10.  `setup_index` with `primary_key = None` only applies the settings
(it issues exactly one `set_settings` call and never creates the index, even
when the index does not exist); a `create_index` call is issued exactly when
a primary key is given and the index lookup fails. -/
theorem C10_setup_index_branches :
    ∀ (indexExists : Bool) (pk : String),
      setup_index indexExists none = [.setSettings] ∧
      (SetupCall.createIndex pk ∈ setup_index indexExists (some pk) ↔
        indexExists = false) := by
  intro indexExists pk
  refine ⟨rfl, ?_⟩
  cases indexExists <;> simp [setup_index]

/-- C9.  Batch coverage: for batch size `B > 0`, the chunking used for
dispatch partitions the upsert list — concatenating the chunks restores the
list (so every document appears in exactly one batch), the total size across
batches equals the input size, each chunk has size at most `B`, and the
chunks issued by a cycle are exactly `chunkList B` of the enqueued
documents. -/
theorem C9_batch_coverage :
    ∀ (B : Nat) (docs : List Json), 0 < B →
      (chunkList B docs).flatten = docs ∧
      ((chunkList B docs).map List.length).sum = docs.length ∧
      (∀ c ∈ chunkList B docs, c.length ≤ B) ∧
      ∀ (table : TableConfig) (m d : List Json)
        (addOut : List Json → Except ConnectorError Unit),
        (sync_table_impl table (.ok m) (.ok d) B (fun _ => .ok ()) addOut).upserts =
          chunkList B (docsToAdd table m d) := by
  intro B docs hB
  refine ⟨chunkList_flatten B docs, chunkList_sum_lengths B docs,
    fun c hc => chunkList_mem_length hB hc, ?_⟩
  intro table m d addOut
  rw [sync_ok_delOk_eq]

/-- Witness for C9 at `B = 2` and a concrete three-document list. -/
theorem C9_batch_coverage_witness :
    (chunkList 2 [Json.num 1, Json.num 2, Json.num 3]).flatten =
      [Json.num 1, Json.num 2, Json.num 3] ∧
    ((chunkList 2 [Json.num 1, Json.num 2, Json.num 3]).map List.length).sum = 3 ∧
    (∀ c ∈ chunkList 2 [Json.num 1, Json.num 2, Json.num 3], c.length ≤ 2) ∧
    ∀ (table : TableConfig) (m d : List Json)
      (addOut : List Json → Except ConnectorError Unit),
      (sync_table_impl table (.ok m) (.ok d) 2 (fun _ => .ok ()) addOut).upserts =
        chunkList 2 (docsToAdd table m d) :=
  C9_batch_coverage 2 [Json.num 1, Json.num 2, Json.num 3] (by decide)

/-- C4 counterexample: a cycle in which the (single) upsert chunk completes
with an error, yet `sync_table_impl` returns `Ok(())`.  The chunk errors are
only logged (src/connector.rs lines 521-540 discard the per-chunk
`Result`), so the claim "sync_table_impl returns failure" is false. -/
theorem C4_counterexample :
    (sync_table_impl ⟨"t", "id", none⟩ (.ok [])
        (.ok [Json.obj [("id", Json.num 1)]]) 100 (fun _ => .ok ())
        (fun _ => .error (.meilisearch "boom"))).chunkResults =
      [.error (.meilisearch "boom")] ∧
    (sync_table_impl ⟨"t", "id", none⟩ (.ok [])
        (.ok [Json.obj [("id", Json.num 1)]]) 100 (fun _ => .ok ())
        (fun _ => .error (.meilisearch "boom"))).result = .ok () := by
  constructor <;> rfl

/-- C4 (amended).  When the fetch phase succeeds and `delete_documents`
succeeds, upsert-chunk errors are only logged: `sync_table_impl` returns
`Ok(())` regardless of the chunk outcomes, and every chunk is still
dispatched (the issued chunks are exactly the chunking of the enqueued
documents, independent of any chunk's error). -/
theorem C4_upsert_chunk_errors_logged_only :
    ∀ (table : TableConfig) (m d : List Json) (B : Nat)
      (addOut : List Json → Except ConnectorError Unit),
      (sync_table_impl table (.ok m) (.ok d) B (fun _ => .ok ()) addOut).result =
        .ok () ∧
      (sync_table_impl table (.ok m) (.ok d) B (fun _ => .ok ()) addOut).upserts =
        chunkList B (docsToAdd table m d) ∧
      (sync_table_impl table (.ok m) (.ok d) B (fun _ => .ok ()) addOut).chunkResults =
        (chunkList B (docsToAdd table m d)).map addOut := by
  intro table m d B addOut
  rw [sync_ok_delOk_eq]
  exact ⟨rfl, rfl, rfl⟩

/-- C3.  Untouched intersection: in a cycle with successful fetches, the
deleted ids are exactly the Meilisearch-side valid keys absent from the
database side; every upserted document's valid key is a database-side key
absent from the Meilisearch side; hence a key present on both sides is
neither deleted nor upserted. -/
theorem C3_untouched_intersection :
    ∀ (table : TableConfig) (m d : List Json) (B : Nat), 0 < B →
      (∀ k,
        (∃ ids ∈ (sync_table_impl table (.ok m) (.ok d) B (fun _ => .ok ())
            (fun _ => .ok ())).deletes, k ∈ ids) ↔
          ((∃ doc ∈ m, docKey table doc = some k) ∧
            ¬ ∃ doc ∈ d, docKey table doc = some k)) ∧
      (∀ doc ∈ (sync_table_impl table (.ok m) (.ok d) B (fun _ => .ok ())
          (fun _ => .ok ())).upserts.flatten,
        ∃ k, docKey table doc = some k ∧ (∃ r ∈ d, docKey table r = some k) ∧
          ¬ ∃ mdoc ∈ m, docKey table mdoc = some k) ∧
      (∀ k, (∃ r ∈ d, docKey table r = some k) →
        (∃ mdoc ∈ m, docKey table mdoc = some k) →
        (∀ ids ∈ (sync_table_impl table (.ok m) (.ok d) B (fun _ => .ok ())
            (fun _ => .ok ())).deletes, k ∉ ids) ∧
        (∀ doc ∈ (sync_table_impl table (.ok m) (.ok d) B (fun _ => .ok ())
            (fun _ => .ok ())).upserts.flatten, docKey table doc ≠ some k)) := by
  intro table m d B _hB
  rw [sync_ok_delOk_eq]
  have hdel : ∀ k,
      (∃ ids ∈ (if idsToDelete table m d = [] then []
          else [idsToDelete table m d]), k ∈ ids) ↔
        ((∃ doc ∈ m, docKey table doc = some k) ∧
          ¬ ∃ doc ∈ d, docKey table doc = some k) := by
    intro k
    by_cases hc : idsToDelete table m d = []
    · rw [if_pos hc]
      constructor
      · rintro ⟨ids, hids, _⟩
        exact absurd hids (by simp)
      · intro hrhs
        have : k ∈ idsToDelete table m d := mem_idsToDelete.mpr hrhs
        rw [hc] at this
        exact absurd this (by simp)
    · rw [if_neg hc]
      constructor
      · rintro ⟨ids, hids, hk⟩
        obtain rfl := List.mem_singleton.mp hids
        exact mem_idsToDelete.mp hk
      · intro hrhs
        exact ⟨idsToDelete table m d, by simp, mem_idsToDelete.mpr hrhs⟩
  have hups : ∀ doc ∈ (chunkList B (docsToAdd table m d)).flatten,
      ∃ k, docKey table doc = some k ∧ (∃ r ∈ d, docKey table r = some k) ∧
        ¬ ∃ mdoc ∈ m, docKey table mdoc = some k := by
    intro doc hdoc
    rw [chunkList_flatten] at hdoc
    exact docsToAdd_key hdoc
  refine ⟨hdel, hups, ?_⟩
  intro k hd hm
  constructor
  · intro ids hids hk
    exact ((hdel k).mp ⟨ids, hids, hk⟩).2 hd
  · intro doc hdoc hkey
    obtain ⟨k', hk', _, hnm⟩ := hups doc hdoc
    rw [hkey] at hk'
    obtain rfl := Option.some.inj hk'
    exact hnm hm

/-- Witness for C3 on the mixed-diff scenario: database `{id:1},{id:3}`,
index `{id:2},{id:3}`, batch size 1. -/
theorem C3_untouched_intersection_witness :
    (∀ k,
      (∃ ids ∈ (sync_table_impl ⟨"t", "id", none⟩
          (.ok [Json.obj [("id", Json.num 2)], Json.obj [("id", Json.num 3)]])
          (.ok [Json.obj [("id", Json.num 1)], Json.obj [("id", Json.num 3)]])
          1 (fun _ => .ok ()) (fun _ => .ok ())).deletes, k ∈ ids) ↔
        ((∃ doc ∈ [Json.obj [("id", Json.num 2)], Json.obj [("id", Json.num 3)]],
            docKey ⟨"t", "id", none⟩ doc = some k) ∧
          ¬ ∃ doc ∈ [Json.obj [("id", Json.num 1)], Json.obj [("id", Json.num 3)]],
            docKey ⟨"t", "id", none⟩ doc = some k)) ∧
    (∀ doc ∈ (sync_table_impl ⟨"t", "id", none⟩
        (.ok [Json.obj [("id", Json.num 2)], Json.obj [("id", Json.num 3)]])
        (.ok [Json.obj [("id", Json.num 1)], Json.obj [("id", Json.num 3)]])
        1 (fun _ => .ok ()) (fun _ => .ok ())).upserts.flatten,
      ∃ k, docKey ⟨"t", "id", none⟩ doc = some k ∧
        (∃ r ∈ [Json.obj [("id", Json.num 1)], Json.obj [("id", Json.num 3)]],
          docKey ⟨"t", "id", none⟩ r = some k) ∧
        ¬ ∃ mdoc ∈ [Json.obj [("id", Json.num 2)], Json.obj [("id", Json.num 3)]],
          docKey ⟨"t", "id", none⟩ mdoc = some k) ∧
    (∀ k, (∃ r ∈ [Json.obj [("id", Json.num 1)], Json.obj [("id", Json.num 3)]],
        docKey ⟨"t", "id", none⟩ r = some k) →
      (∃ mdoc ∈ [Json.obj [("id", Json.num 2)], Json.obj [("id", Json.num 3)]],
        docKey ⟨"t", "id", none⟩ mdoc = some k) →
      (∀ ids ∈ (sync_table_impl ⟨"t", "id", none⟩
          (.ok [Json.obj [("id", Json.num 2)], Json.obj [("id", Json.num 3)]])
          (.ok [Json.obj [("id", Json.num 1)], Json.obj [("id", Json.num 3)]])
          1 (fun _ => .ok ()) (fun _ => .ok ())).deletes, k ∉ ids) ∧
      (∀ doc ∈ (sync_table_impl ⟨"t", "id", none⟩
          (.ok [Json.obj [("id", Json.num 2)], Json.obj [("id", Json.num 3)]])
          (.ok [Json.obj [("id", Json.num 1)], Json.obj [("id", Json.num 3)]])
          1 (fun _ => .ok ()) (fun _ => .ok ())).upserts.flatten,
        docKey ⟨"t", "id", none⟩ doc ≠ some k)) :=
  C3_untouched_intersection ⟨"t", "id", none⟩
    [Json.obj [("id", Json.num 2)], Json.obj [("id", Json.num 3)]]
    [Json.obj [("id", Json.num 1)], Json.obj [("id", Json.num 3)]]
    1 (by decide)

/-- C1 (amended).  Convergence of one reconciliation cycle, under the
additional hypothesis (forced by the 10 MB document cap) that the
normalizer succeeds on every database document: after applying the issued
`delete_documents` and `add_or_update_documents` calls to the index, the
index's set of valid `PrimaryKeyString`s equals the set of valid
`PrimaryKeyString`s of the database rows. -/
theorem C1_convergence :
    ∀ (table : TableConfig) (index db_docs : List Json) (B : Nat),
      (∀ doc ∈ db_docs, ∀ fs, jsonAsObject doc = some fs →
        ∀ k, docKey table doc = some k →
          (process_document_obj table fs k 10000000 65536).isOk = true) →
      ∀ k,
        k ∈ validKeys table (applySync table index
            (sync_table_impl table (.ok index) (.ok db_docs) B
              (fun _ => .ok ()) (fun _ => .ok ()))) ↔
          ∃ doc ∈ db_docs, docKey table doc = some k := by
  intro table index db_docs B H k
  rw [sync_ok_delOk_eq]
  unfold applySync
  dsimp only
  rw [validKeys_foldl_upsert, validKeys_foldl_delete, chunkList_flatten,
    docsToAdd_key_iff H, mem_validKeys]
  have hdelc : (∀ ids ∈ (if idsToDelete table index db_docs = [] then []
      else [idsToDelete table index db_docs]), k ∉ ids) ↔
      ¬ ((∃ doc ∈ index, docKey table doc = some k) ∧
        ¬ ∃ doc ∈ db_docs, docKey table doc = some k) := by
    by_cases hc : idsToDelete table index db_docs = []
    · rw [if_pos hc]
      constructor
      · intro _ hboth
        have : k ∈ idsToDelete table index db_docs := mem_idsToDelete.mpr hboth
        rw [hc] at this
        exact absurd this (by simp)
      · intro _ ids hids
        exact absurd hids (by simp)
    · rw [if_neg hc]
      constructor
      · intro h1 hboth
        exact h1 (idsToDelete table index db_docs) (by simp)
          (mem_idsToDelete.mpr hboth)
      · intro h1 ids hids
        obtain rfl := List.mem_singleton.mp hids
        intro hk
        exact h1 (mem_idsToDelete.mp hk)
  rw [hdelc]
  generalize (∃ doc ∈ index, docKey table doc = some k) = M
  generalize (∃ doc ∈ db_docs, docKey table doc = some k) = D
  tauto

/-- Witness for C1: database `{id:1},{id:3}` against index `{id:2},{id:3}`
converges to the database key set. -/
theorem C1_convergence_witness :
    "1" ∈ validKeys ⟨"t", "id", none⟩ (applySync ⟨"t", "id", none⟩
        [Json.obj [("id", Json.num 2)], Json.obj [("id", Json.num 3)]]
        (sync_table_impl ⟨"t", "id", none⟩
          (.ok [Json.obj [("id", Json.num 2)], Json.obj [("id", Json.num 3)]])
          (.ok [Json.obj [("id", Json.num 1)], Json.obj [("id", Json.num 3)]])
          1 (fun _ => .ok ()) (fun _ => .ok ()))) ↔
      ∃ doc ∈ [Json.obj [("id", Json.num 1)], Json.obj [("id", Json.num 3)]],
        docKey ⟨"t", "id", none⟩ doc = some "1" :=
  C1_convergence ⟨"t", "id", none⟩
    [Json.obj [("id", Json.num 2)], Json.obj [("id", Json.num 3)]]
    [Json.obj [("id", Json.num 1)], Json.obj [("id", Json.num 3)]] 1
    (by
      intro doc hdoc fs hfs k hk
      rcases List.mem_cons.mp hdoc with rfl | hdoc
      · obtain rfl : [("id", Json.num 1)] = fs := by
          simpa [jsonAsObject] using hfs
        obtain rfl : k = "1" := by
          have h1 : docKey ⟨"t", "id", none⟩
              (Json.obj [("id", Json.num 1)]) = some "1" := rfl
          rw [h1] at hk
          exact (Option.some.inj hk).symm
        rfl
      · rcases List.mem_cons.mp hdoc with rfl | hdoc
        · obtain rfl : [("id", Json.num 3)] = fs := by
            simpa [jsonAsObject] using hfs
          obtain rfl : k = "3" := by
            have h1 : docKey ⟨"t", "id", none⟩
                (Json.obj [("id", Json.num 3)]) = some "3" := rfl
            rw [h1] at hk
            exact (Option.some.inj hk).symm
          rfl
        · exact absurd hdoc (by simp))
    "1"

/-- C1 counterexample: with an empty index and the single database row
`{id: 1, body: "a" * 10000001}`, the processed document exceeds the 10 MB
cap, the row is skipped, and the index after the cycle is empty — its valid
key set does not equal the database's valid key set `{"1"}`.  So convergence
does not hold for every database state. -/
theorem C1_counterexample :
    ¬ (∀ k,
      k ∈ validKeys ⟨"t", "id", none⟩ (applySync ⟨"t", "id", none⟩ []
          (sync_table_impl ⟨"t", "id", none⟩ (.ok []) (.ok [bigDoc]) 100
            (fun _ => .ok ()) (fun _ => .ok ()))) ↔
        ∃ doc ∈ [bigDoc], docKey ⟨"t", "id", none⟩ doc = some k) := by
  intro h
  have hkey : docKey ⟨"t", "id", none⟩ bigDoc = some "1" := rfl
  have h1 := (h "1").mpr ⟨bigDoc, by simp, hkey⟩
  rw [sync_ok_delOk_eq] at h1
  have hdel0 : idsToDelete ⟨"t", "id", none⟩ [] [bigDoc] = [] := rfl
  rw [hdel0, docsToAdd_big] at h1
  simp [applySync, chunkList, chunkListGo, validKeys] at h1

/-- C2.  Identity filter: `ensure_valid_primary_key` returns `None` exactly
when the primary-key field is absent, is JSON null, or its stringification
(JSON rendering with surrounding quotation marks trimmed) is `""`, `"null"`
or `"0"`; when it returns `Some`, the key equals that stringification of the
document's primary-key value (and the returned document is the input). -/
theorem C2_identity_filter :
    ∀ (doc : Json) (table : TableConfig),
      (ensure_valid_primary_key doc table = none ↔
        jsonGet doc table.primary_key = none ∨
        ∃ v, jsonGet doc table.primary_key = some v ∧
          (v = Json.null ∨ pkString v = "" ∨ pkString v = "null" ∨
            pkString v = "0")) ∧
      (∀ s d, ensure_valid_primary_key doc table = some (s, d) →
        ∃ v, jsonGet doc table.primary_key = some v ∧ s = pkString v ∧
          d = doc) := by
  intro doc table
  rcases hg : jsonGet doc table.primary_key with _ | v
  · have he : ensure_valid_primary_key doc table = none := by
      unfold ensure_valid_primary_key
      rw [hg]
    constructor
    · rw [he]
      simp
    · intro s d hsd
      rw [he] at hsd
      exact absurd hsd (by simp)
  · have he : ensure_valid_primary_key doc table =
        if isNullJson v then none
        else if pkString v = "" ∨ pkString v = "null" ∨ pkString v = "0" then
          none
        else some (pkString v, doc) := by
      unfold ensure_valid_primary_key
      rw [hg]
    constructor
    · rw [he]
      by_cases hnull : isNullJson v
      · rw [if_pos hnull]
        constructor
        · intro _
          exact Or.inr ⟨v, rfl, Or.inl (isNullJson_iff.mp hnull)⟩
        · intro _
          rfl
      · rw [if_neg hnull]
        by_cases hs : pkString v = "" ∨ pkString v = "null" ∨ pkString v = "0"
        · rw [if_pos hs]
          constructor
          · intro _
            exact Or.inr ⟨v, rfl, Or.inr hs⟩
          · intro _
            rfl
        · rw [if_neg hs]
          constructor
          · intro hcontra
            exact absurd hcontra (by simp)
          · rintro (hnone | ⟨v', hv', hcond⟩)
            · exact absurd hnone (by simp)
            · obtain rfl : v = v' := Option.some.inj hv'
              rcases hcond with rfl | hc
              · exact absurd (isNullJson_iff.mpr rfl) hnull
              · exact absurd hc hs
    · intro s d hsd
      rw [he] at hsd
      split_ifs at hsd with h1 h2
      have hinj := Option.some.inj hsd
      exact ⟨v, rfl, (congrArg Prod.fst hinj).symm,
        (congrArg Prod.snd hinj).symm⟩

/-- Witness for C2: on the document `{id: 5}` with primary key `id`, the
filter accepts and returns the stringification `"5"`. -/
theorem C2_identity_filter_witness :
    ∃ v, jsonGet (Json.obj [("id", Json.num 5)]) "id" = some v ∧
      "5" = pkString v ∧ Json.obj [("id", Json.num 5)] =
        Json.obj [("id", Json.num 5)] :=
  (C2_identity_filter (Json.obj [("id", Json.num 5)]) ⟨"t", "id", none⟩).2
    "5" (Json.obj [("id", Json.num 5)]) rfl

/-- C6.  Document-size cap: `process_document_obj` returns a "Document too
large" error exactly when the JSON serialization of the processed document
exceeds 10,000,000 bytes; every document it returns successfully — and hence
every document enqueued for upsert by a cycle — serializes to at most
10,000,000 bytes, and the failing row is merely skipped (the claim's
caller-side part). -/
theorem C6_document_size_cap :
    ∀ (table : TableConfig) (fields : List (String × Json))
      (display_id : String) (tc fc : Nat),
      ((∃ e, process_document_obj table fields display_id tc fc = .error e ∧
          isTooLargeError e = true) ↔
        ∃ idv, lookupField fields table.primary_key = some idv ∧
          utf8Len (serializeJson (Json.obj (processFields table tc fc fields 1
            [(table.primary_key, idv)]))) > 10000000) ∧
      (∀ v, process_document_obj table fields display_id tc fc = .ok v →
        utf8Len (serializeJson v) ≤ 10000000) ∧
      (∀ (m d : List Json) (B : Nat)
        (addOut : List Json → Except ConnectorError Unit),
        ∀ chunk ∈ (sync_table_impl table (.ok m) (.ok d) B (fun _ => .ok ())
          addOut).upserts, ∀ doc ∈ chunk,
          utf8Len (serializeJson doc) ≤ 10000000) := by
  intro table fields display_id tc fc
  refine ⟨?_, ?_, ?_⟩
  · rcases hl : lookupField fields table.primary_key with _ | idv
    · rw [process_missing_pk hl]
      constructor
      · rintro ⟨e, he, htoo⟩
        rw [← Except.error.inj he, isTooLargeError_missing_pk] at htoo
        exact absurd htoo (by simp)
      · rintro ⟨idv, hidv, _⟩
        exact absurd hidv (by simp)
    · by_cases hbig : utf8Len (serializeJson (Json.obj (processFields table
          tc fc fields 1 [(table.primary_key, idv)]))) > 10000000
      · rw [process_error_of_too_large hl hbig]
        constructor
        · intro _
          exact ⟨idv, rfl, hbig⟩
        · intro _
          exact ⟨_, rfl, isTooLargeError_msg display_id _⟩
      · rw [process_ok_of_small hl hbig]
        constructor
        · rintro ⟨e, he, _⟩
          exact absurd he (by simp)
        · rintro ⟨idv', hidv', hbig'⟩
          obtain rfl : idv = idv' := Option.some.inj hidv'
          exact absurd hbig' hbig
  · intro v hv
    obtain ⟨idv, h1, h2, h3⟩ := process_ok_parts hv
    exact h3
  · intro m d B addOut chunk hchunk doc hdoc
    rw [sync_ok_delOk_eq] at hchunk
    have hmem : doc ∈ docsToAdd table m d := by
      rw [← chunkList_flatten B (docsToAdd table m d)]
      exact List.mem_flatten.mpr ⟨chunk, hchunk, hdoc⟩
    obtain ⟨kv, _, _, fs, _, hp⟩ := mem_docsToAdd.mp hmem
    obtain ⟨idv, h1, h2, h3⟩ := process_ok_parts hp
    exact h3

/-- Witness for C6: the document `{id: 5}` is processed successfully, so its
serialization is within the cap. -/
theorem C6_document_size_cap_witness :
    utf8Len (serializeJson (Json.obj [("id", Json.num 5)])) ≤ 10000000 :=
  (C6_document_size_cap ⟨"t", "id", none⟩ [("id", Json.num 5)] "5" 10000000
    65536).2.1 (Json.obj [("id", Json.num 5)]) rfl

/-- C8.  Text truncation in code points: a string with more than `cap` code
points is truncated to exactly its first `cap` code points; the output never
has more than `cap` code points; a string with at most `cap` code points is
passed through unchanged (even when its UTF-8 byte length exceeds the cap,
because `take cap` then returns the whole string); and in any document
emitted by the normalizer at the default cap 10,000,000, every string field
has at most 10,000,000 code points. -/
theorem C8_text_truncation :
    ∀ (cap : Nat) (s : String),
      (s.data.length > cap →
        truncateText cap s = String.mk (s.data.take cap)) ∧
      (s.data.length ≤ cap → truncateText cap s = s) ∧
      ((truncateText cap s).data.length ≤ cap) ∧
      (∀ (table : TableConfig) (fields : List (String × Json))
        (display_id : String) (fc : Nat) (v : Json)
        (pfs : List (String × Json)),
        process_document_obj table fields display_id 10000000 fc = .ok v →
        jsonAsObject v = some pfs →
        ∀ k txt, (k, Json.str txt) ∈ pfs → txt.data.length ≤ 10000000) := by
  intro cap s
  refine ⟨?_, ?_, ?_, ?_⟩
  · intro hlong
    unfold truncateText
    rw [if_pos]
    have := length_le_utf8Len s.data
    omega
  · intro hshort
    unfold truncateText
    by_cases hb : utf8Len s.data > cap
    · rw [if_pos hb, List.take_of_length_le hshort]
    · rw [if_neg hb]
  · unfold truncateText
    by_cases hb : utf8Len s.data > cap
    · rw [if_pos hb]
      show (s.data.take cap).length ≤ cap
      simp [List.length_take]
    · rw [if_neg hb]
      have := length_le_utf8Len s.data
      omega
  · intro table fields display_id fc v pfs hv hobj k txt hmem
    obtain ⟨idv, h1, h2, h3⟩ := process_ok_parts hv
    obtain rfl : v = Json.obj pfs := jsonAsObject_some hobj
    have hge := serializeJson_obj_ge_mem hmem
    rw [utf8Len_serialize_str] at hge
    have hesc := length_le_utf8Len_escaped txt.data
    omega

/-- Witness for C8 at cap 3 on the string `"hello"`: truncation to the first
three characters, and the bound. -/
theorem C8_text_truncation_witness :
    truncateText 3 "hello" = String.mk ("hello".data.take 3) ∧
    (truncateText 3 "hello").data.length ≤ 3 :=
  ⟨(C8_text_truncation 3 "hello").1 (by decide),
    (C8_text_truncation 3 "hello").2.2.1⟩

/-- C7 counterexample: with configured primary key `user_id`, a null in the
`user_id` column stays JSON null in the produced Row — it is not converted
to integer 0 (the coercion in src/database/sqlite.rs lines 196-201 tests the
literal column name `"id"`, not the configured primary key); and a null in a
non-primary-key column `a` is present as JSON null, not absent. -/
theorem C7_counterexample :
    jsonGet (row_to_json [("user_id", SqlValue.null)]) "user_id" =
      some Json.null ∧
    some Json.null ≠ some (Json.num 0) ∧
    jsonGet (row_to_json [("id", SqlValue.integer 7), ("a", SqlValue.null)])
      "a" = some Json.null := by
  refine ⟨rfl, ?_, rfl⟩
  intro h
  exact Json.noConfusion (Option.some.inj h)

/-- C7 (amended).  In `row_to_json`, a null (or undetermined-type) value in
a column named exactly `"id"` is converted to the integer 0, regardless of
the configured primary key; a null value in any other column — including a
configured primary-key column not named `"id"` — is kept in the produced Row
as JSON null (present, not absent). -/
theorem C7_null_coercion :
    ∀ (cols : List (String × SqlValue)) (n : String),
      (cols.map Prod.fst).Nodup → (n, SqlValue.null) ∈ cols →
      (n = "id" → jsonGet (row_to_json cols) n = some (Json.num 0)) ∧
      (n ≠ "id" → jsonGet (row_to_json cols) n = some Json.null) := by
  intro cols n hnd hmem
  have hl : jsonGet (row_to_json cols) n = some (cellToJson n SqlValue.null) := by
    unfold row_to_json jsonGet
    exact row_fold_lookup cols [] n SqlValue.null hnd hmem
  constructor
  · intro hid
    rw [hl]
    unfold cellToJson
    rw [if_pos hid]
  · intro hid
    rw [hl]
    unfold cellToJson
    rw [if_neg hid]

/-- Witness for C7: the row `{id: null, a: null}` produces
`{id: 0, a: null}`. -/
theorem C7_null_coercion_witness :
    (("id" : String) = "id" →
      jsonGet (row_to_json [("id", SqlValue.null), ("a", SqlValue.null)])
        "id" = some (Json.num 0)) ∧
    (("id" : String) ≠ "id" →
      jsonGet (row_to_json [("id", SqlValue.null), ("a", SqlValue.null)])
        "id" = some Json.null) :=
  C7_null_coercion [("id", SqlValue.null), ("a", SqlValue.null)] "id"
    (by decide) (by decide)

end MSC
